import Mathlib

/-!
Verification of the local scoring pipeline of `scripts/multi_api_checker.py`
(PlagiarismGuard).  The Python functions `clean_text`, `get_ngrams`,
`calculate_tfidf_similarity`, `calculate_ngram_overlap`,
`extract_key_phrases` and the method `PlagiarismChecker.analyze` are
shallowly embedded below; Python floats are modelled by exact arithmetic
(`ℚ` where the code computes rational values, `ℝ` where a square root
occurs); the external detection services are modelled by an explicit
oracle recording whether each remote call would have returned a result.
-/

namespace PlagGuard

/-- ASCII model of the Python regex class `\w` (word character). -/
def isWordChar (c : Char) : Bool :=
  c.isAlphanum || c = '_'

/-- ASCII model of the Python regex class `\s` (whitespace character). -/
def isSpaceChar (c : Char) : Bool :=
  c = ' ' || c = '\t' || c = '\n' || c = '\r' || c = '\x0b' || c = '\x0c'

/-- Helper for `clean_words`: scans the character list, lowercasing and
collecting maximal runs of word characters (every other character acts as
a separator, exactly as `re.sub(r'[^\w\s]', ' ', text.lower())` followed by
whitespace collapsing, stripping and splitting does). `cur` holds the
characters of the current run in reverse. -/
def cleanWordsAux : List Char → List Char → List String
  | [], cur => if cur.isEmpty then [] else [String.mk cur.reverse]
  | c :: rest, cur =>
    let c2 := c.toLower
    if isWordChar c2 then
      cleanWordsAux rest (c2 :: cur)
    else if cur.isEmpty then
      cleanWordsAux rest []
    else
      String.mk cur.reverse :: cleanWordsAux rest []

/-- The token sequence `clean_text(text).split()` that every scoring
function in the Python source starts from. -/
def clean_words (text : String) : List String :=
  cleanWordsAux text.data []

/-- Embedding of `clean_text`: the normalized tokens joined by single
spaces (the Python function lowercases, replaces non-word non-space
characters by spaces, collapses whitespace and strips). -/
def clean_text (text : String) : String :=
  " ".intercalate (clean_words text)

/-- Python list slicing `l[i:j]` for integer bounds (the source evaluates
`words[i:i+n]` where `i+n` may be negative or past the end): a negative
bound counts from the end and clamps at `0`, a nonnegative bound clamps at
the length. -/
def pySlice (l : List α) (i j : Int) : List α :=
  let L : Int := l.length
  let start : Int := if i < 0 then max 0 (L + i) else min i L
  let stop : Int := if j < 0 then max 0 (L + j) else min j L
  (l.drop start.toNat).take (stop - start).toNat

/-- Python `range(k)` for a possibly negative integer argument. -/
def intRange (k : Int) : List Int :=
  (List.range k.toNat).map Int.ofNat

/-- Embedding of `get_ngrams(text, n)`:
`[' '.join(words[i:i+n]) for i in range(len(words)-n+1)]` over the
cleaned token list. -/
def get_ngrams (text : String) (n : Int) : List String :=
  let words := clean_words text
  (intRange ((words.length : Int) - n + 1)).map
    (fun i => " ".intercalate (pySlice words i (i + n)))

/-- The vocabulary `set(words1 + words2)` of `calculate_tfidf_similarity`. -/
def vocabOf (words1 words2 : List String) : Finset String :=
  (words1 ++ words2).toFinset

/-- The term-frequency vector `{w: words.count(w) / len(words)}` (exact
rational model of the Python float). -/
def tf (words : List String) (w : String) : ℚ :=
  (words.count w : ℚ) / (words.length : ℚ)

/-- The dot product `sum(tf1.get(w, 0) * tf2.get(w, 0) for w in vocab)`
(both dictionaries are keyed by exactly `vocab`, so `get` never falls
back to the default). -/
def dotTF (vocab : Finset String) (f g : String → ℚ) : ℚ :=
  ∑ w ∈ vocab, f w * g w

/-- A vector norm `sum(v**2 for v in tf.values()) ** 0.5`. -/
noncomputable def normTF (vocab : Finset String) (f : String → ℚ) : ℝ :=
  Real.sqrt (∑ w ∈ vocab, (f w : ℝ) ^ 2)

/-- Embedding of `calculate_tfidf_similarity`: term-frequency cosine
similarity scaled to a percentage.  The term frequencies are exact
rationals; the two norms require a square root, so the result lives in
`ℝ` (exact-arithmetic model of the Python floats). -/
noncomputable def calculate_tfidf_similarity (text1 text2 : String) : ℝ :=
  let words1 := clean_words text1
  let words2 := clean_words text2
  if words1 = [] ∨ words2 = [] then 0 else
    let vocab := vocabOf words1 words2
    let norm1 := normTF vocab (tf words1)
    let norm2 := normTF vocab (tf words2)
    if norm1 = 0 ∨ norm2 = 0 then 0
    else (dotTF vocab (tf words1) (tf words2) : ℝ) / (norm1 * norm2) * 100

/-- The set of n-grams of a text, `set(get_ngrams(text, n))`. -/
def ngramSet (text : String) (n : Int) : Finset String :=
  (get_ngrams text n).toFinset

/-- Embedding of `calculate_ngram_overlap`: `|A ∩ B| / |A| * 100` on the
two n-gram sets, `0` when the first set is empty.  The value is an exact
rational. -/
def calculate_ngram_overlap (text1 text2 : String) (n : Int) : ℚ :=
  let ngrams1 := ngramSet text1 n
  let ngrams2 := ngramSet text2 n
  if ngrams1 = ∅ then 0
  else ((ngrams1 ∩ ngrams2).card : ℚ) / (ngrams1.card : ℚ) * 100

/-- Sentence terminators of `re.split(r'[.!?]', text)`. -/
def isSentTerm (c : Char) : Bool :=
  c = '.' || c = '!' || c = '?'

/-- Split a character list at every character satisfying `p`, keeping
empty segments, exactly as Python `re.split` on a single-character class
does. -/
def splitCharsOn (p : Char → Bool) : List Char → List (List Char)
  | [] => [[]]
  | c :: rest =>
    match splitCharsOn p rest with
    | [] => [[c]]
    | g :: gs => if p c then [] :: g :: gs else (c :: g) :: gs

/-- Helper: split a character list into maximal runs of non-whitespace
characters (Python `str.split()` with no argument); `cur` holds the
current run reversed. -/
def splitWsAux : List Char → List Char → List String
  | [], cur => if cur.isEmpty then [] else [String.mk cur.reverse]
  | c :: rest, cur =>
    if isSpaceChar c then
      if cur.isEmpty then splitWsAux rest []
      else String.mk cur.reverse :: splitWsAux rest []
    else splitWsAux rest (c :: cur)

/-- Python `text.split()` (whitespace split, empties discarded). -/
def pyStrSplit (text : String) : List String :=
  splitWsAux text.data []

/-- Per-character lowercasing, Python `str.lower()`. -/
def lowerStr (s : String) : String :=
  String.mk (s.data.map Char.toLower)

/-- Word list of one sentence inside `extract_key_phrases`:
`re.sub(r'[^\w\s]', '', sentence).split()` (non-word non-space characters
are deleted, then whitespace split). -/
def sentWords (s : List Char) : List String :=
  splitWsAux (s.filter (fun c => isWordChar c || isSpaceChar c)) []

/-- The uncapped phrase stream of `extract_key_phrases`: processes the
sentences in order, emitting each candidate phrase (first `min_words`
words joined by spaces) that is longer than 20 characters and whose
lowercase form has not been seen, with no `max_phrases` cut-off.  Used to
state what the capped loop computes. -/
def ekpAllLoop (min_words : Nat) : List (List Char) → List String → List String
  | [], _ => []
  | s :: rest, seen =>
    let ws := sentWords s
    if min_words ≤ ws.length then
      let phrase := " ".intercalate (ws.take min_words)
      let pl := lowerStr phrase
      if pl ∉ seen ∧ 20 < phrase.length then
        phrase :: ekpAllLoop min_words rest (pl :: seen)
      else ekpAllLoop min_words rest seen
    else ekpAllLoop min_words rest seen

/-- The loop of `extract_key_phrases`, with the `break` once
`len(phrases) >= max_phrases` after an append; `acc` holds the collected
phrases in reverse. -/
def ekpLoop (min_words max_phrases : Nat) :
    List (List Char) → List String → List String → List String
  | [], _, acc => acc.reverse
  | s :: rest, seen, acc =>
    let ws := sentWords s
    if min_words ≤ ws.length then
      let phrase := " ".intercalate (ws.take min_words)
      let pl := lowerStr phrase
      if pl ∉ seen ∧ 20 < phrase.length then
        if max_phrases ≤ acc.length + 1 then (phrase :: acc).reverse
        else ekpLoop min_words max_phrases rest (pl :: seen) (phrase :: acc)
      else ekpLoop min_words max_phrases rest seen acc
    else ekpLoop min_words max_phrases rest seen acc

/-- Embedding of `extract_key_phrases(text, min_words, max_phrases)`. -/
def extract_key_phrases (text : String) (min_words max_phrases : Nat) :
    List String :=
  ekpLoop min_words max_phrases (splitCharsOn isSentTerm text.data) [] []

/-- One reference entry of `ACADEMIC_REFERENCES` (`{id, name, type, text}`). -/
structure RefEntry where
  id : String
  name : String
  type : String
  text : String
  deriving Repr, DecidableEq

/-- The `SourceMatch` dataclass. -/
structure SourceMatch where
  name : String
  source_type : String
  similarity : ℝ
  url : Option String := none
  matched_phrases : Option (List String) := none

/-- One entry of the `key_phrases` list built in `analyze`
(`{'text': ..., 'found': ..., 'source': ...}`). -/
structure PhraseResult where
  text : String
  found : Bool
  source : Option String
  deriving Repr, DecidableEq

/-- The `AnalysisResult` dataclass. -/
structure AnalysisResult where
  overall_score : ℝ
  word_count : Nat
  unique_words : Nat
  max_match : ℝ
  sources_checked : Nat
  sources : List SourceMatch
  key_phrases : List PhraseResult
  api_status : List (String × String)
  timestamp : String

/-- The `APIConfig` dataclass: optional credential strings loaded from the
environment. -/
structure APIConfig where
  copyleaks_email : Option String := none
  copyleaks_key : Option String := none
  zerogpt_key : Option String := none
  google_api_key : Option String := none
  google_cse_id : Option String := none
  deriving Repr, DecidableEq

/-- Python truthiness of an optional string (`None` and `""` are falsy). -/
def truthy : Option String → Bool
  | none => false
  | some s => s ≠ ""

/-- The collaborator slots of `PlagiarismChecker.__init__`: each wrapper
object is created exactly when the corresponding credentials are truthy;
only its presence is observable in `analyze`. -/
structure Checker where
  copyleaks : Bool
  zerogpt : Bool
  google : Bool
  deriving Repr, DecidableEq

/-- Embedding of `PlagiarismChecker.__init__`. -/
def mkChecker (config : APIConfig) : Checker where
  copyleaks := truthy config.copyleaks_email && truthy config.copyleaks_key
  zerogpt := truthy config.zerogpt_key
  google := truthy config.google_api_key && truthy config.google_cse_id

/-- Outcome oracle for the two remote calls made inside `analyze` when
APIs are enabled: whether `check_plagiarism` / `check` would return a
non-`None` result.  This is the nondeterministic external input of the
pipeline. -/
structure ApiOutcomes where
  copyleaks_ok : Bool
  zerogpt_ok : Bool
  deriving Repr, DecidableEq

/-- The module-level reference corpus `ACADEMIC_REFERENCES`, with the
exact triple-quoted strings of the source (including line breaks and
indentation). -/
def ACADEMIC_REFERENCES : List RefEntry :=
  [{ id := "WHO2024",
     name := "WHO Global TB Report 2024",
     type := "Official Report",
     text := "Global tuberculosis report 2024. Tuberculosis remains one of the \n            world's deadliest infectious diseases. India accounts for 26% of the global \n            TB burden. Early diagnosis and prompt treatment are essential to end TB." },
   { id := "Teo2021",
     name := "Teo et al. 2021 - TB Delays Review",
     type := "Meta-analysis",
     text := "Duration and determinants of delayed tuberculosis diagnosis and treatment \n            in high-burden countries: a mixed-methods systematic review and meta-analysis.\n            Tuberculosis diagnostic and treatment delays continue to pose major challenges." },
   { id := "Storla2008",
     name := "Storla et al. 2008 - Delay Review",
     type := "Systematic Review",
     text := "A systematic review of delay in the diagnosis and treatment of tuberculosis.\n            Delayed diagnosis and treatment results in increased infectivity and poor outcomes.\n            Delays are categorized into patient delay, health system delay, and total delay." },
   { id := "Sreeramareddy2009",
     name := "Sreeramareddy et al. 2009",
     type := "Systematic Review",
     text := "Time delays in diagnosis of pulmonary tuberculosis: a systematic review.\n            We conducted a systematic review to estimate time delays in diagnosis.\n            Patient delay contributes significantly to the total delay." },
   { id := "Subbaraman2016",
     name := "Subbaraman et al. 2016 - India TB Cascade",
     type := "Meta-analysis",
     text := "The tuberculosis cascade of care in India's public sector: \n            a systematic review and meta-analysis. India has the highest TB burden globally.\n            We estimated the proportion of patients lost at each stage of the care cascade." }]

/-- Membership test on character lists (`needle` is a leading segment of
`hay`). -/
def leadsChars : List Char → List Char → Bool
  | [], _ => true
  | _ :: _, [] => false
  | a :: as, b :: bs => a = b && leadsChars as bs

/-- Substring test on character lists, Python `needle in hay`. -/
def subChars (needle : List Char) : List Char → Bool
  | [] => needle.isEmpty
  | c :: rest => leadsChars needle (c :: rest) || subChars needle rest

/-- Python string containment `needle in hay`. -/
def strContains (hay needle : String) : Bool :=
  subChars needle.data hay.data

/-- The hardcoded boilerplate patterns checked against each key phrase. -/
def commonPatterns : List String :=
  ["the results show", "in this study", "we found that"]

/-- The `key_phrases` post-processing loop of `analyze`: each extracted
phrase is flagged when its lowercase form contains one of the three fixed
patterns. -/
def phraseResults (text : String) : List PhraseResult :=
  (extract_key_phrases text 6 15).map (fun phrase =>
    let found := commonPatterns.any (fun pat => strContains (lowerStr phrase) pat)
    { text := phrase,
      found := found,
      source := if found then some "Common Pattern" else none })

/-- The body of the per-reference loop in `analyze`: both similarity
measures combined with the fixed `0.6`/`0.4` weights. -/
noncomputable def scoreRef (text : String) (ref : RefEntry) : SourceMatch where
  name := ref.name
  source_type := ref.type
  similarity :=
    calculate_tfidf_similarity text ref.text * 0.6 +
      (calculate_ngram_overlap text ref.text 3 : ℝ) * 0.4

/-- The unsorted `sources` list built by the per-reference loop. -/
noncomputable def localSources (refs : List RefEntry) (text : String) :
    List SourceMatch :=
  refs.map (scoreRef text)

open Classical in
/-- One iteration of the running maximum in the loop:
`if combined > max_match: max_match = combined`. -/
noncomputable def maxStep (m : ℝ) (s : SourceMatch) : ℝ :=
  if m < s.similarity then s.similarity else m

/-- The running maximum kept by the loop: starts at `0.0` and is updated
by `maxStep` for every reference in corpus order. -/
noncomputable def maxMatch (l : List SourceMatch) : ℝ :=
  l.foldl maxStep 0

/-- The overall score: `sum(source_scores)/len(source_scores)` when the
score list is non-empty, else `0.0`. -/
noncomputable def overallScore (l : List SourceMatch) : ℝ :=
  let scores := l.map (fun s => s.similarity)
  if scores.isEmpty then 0 else scores.sum / (scores.length : ℝ)

open Classical in
/-- The comparison used by `sources.sort(key=lambda x: x.similarity,
reverse=True)`; Python sorting is stable, so the sort is `mergeSort`
with this relation. -/
noncomputable def bySimDesc (a b : SourceMatch) : Bool :=
  decide (b.similarity ≤ a.similarity)

/-- The sorted `sources` list. -/
noncomputable def sortSources (l : List SourceMatch) : List SourceMatch :=
  l.mergeSort bySimDesc

/-- The initial `api_status` dictionary of `analyze`, as an ordered
key-value list. -/
def initApiStatus (c : Checker) : List (String × String) :=
  [("Copyleaks", if c.copyleaks then "Ready" else "Not configured"),
   ("ZeroGPT", if c.zerogpt then "Ready" else "Not configured"),
   ("Google Scholar", if c.google then "Ready" else "Not configured"),
   ("Local TF-IDF", "Active"),
   ("N-gram Analysis", "Active")]

/-- Assignment `d[k] = v` for a Python dict modelled as an ordered
key-value list whose key is already present. -/
def setStatus (m : List (String × String)) (k v : String) :
    List (String × String) :=
  m.map (fun p => if p.1 = k then (k, v) else p)

/-- The `api_status` dictionary after the optional API block of
`analyze`: the remote calls (and the status updates recording their
outcome) happen only under `use_apis`, and each is additionally guarded
by `self.<api> and verbose`. -/
def apiStatusAfter (c : Checker) (use_apis verbose : Bool)
    (oracle : ApiOutcomes) : List (String × String) :=
  let st0 := initApiStatus c
  if use_apis then
    let st1 :=
      if c.copyleaks && verbose then
        setStatus st0 "Copyleaks"
          (if oracle.copyleaks_ok then "Submitted" else "Error")
      else st0
    if c.zerogpt && verbose then
      setStatus st1 "ZeroGPT"
        (if oracle.zerogpt_ok then "Complete" else "Error")
    else st1
  else st0

/-- Embedding of `PlagiarismChecker.analyze`, the reference corpus made
an explicit parameter (the loop iterates over the module-level
`ACADEMIC_REFERENCES`); `oracle` records the outcomes of the optional
remote calls and `now` the wall-clock string `datetime.now().isoformat()`. -/
noncomputable def analyzeWith (refs : List RefEntry) (c : Checker)
    (text : String) (use_apis verbose : Bool) (oracle : ApiOutcomes)
    (now : String) : AnalysisResult :=
  let sources0 := localSources refs text
  { overall_score := overallScore sources0
    word_count := (pyStrSplit text).length
    unique_words := ((pyStrSplit text).map lowerStr).toFinset.card
    max_match := maxMatch sources0
    sources_checked := sources0.length
    sources := sortSources sources0
    key_phrases := phraseResults text
    api_status := apiStatusAfter c use_apis verbose oracle
    timestamp := now }

/-- `analyze` against the module-level corpus. -/
noncomputable def analyze (c : Checker) (text : String)
    (use_apis verbose : Bool) (oracle : ApiOutcomes) (now : String) :
    AnalysisResult :=
  analyzeWith ACADEMIC_REFERENCES c text use_apis verbose oracle now

/-! ### Evaluation sanity checks against the Python behaviour -/

lemma clean_words_eval : clean_words "Hello, World!" = ["hello", "world"] ∧
    clean_words "" = [] ∧ clean_words "  a-b_c  " = ["a", "b_c"] := by
  refine ⟨by decide, by decide, by decide⟩

lemma get_ngrams_eval : get_ngrams "a b c d" 3 = ["a b c", "b c d"] ∧
    get_ngrams "a b" 3 = [] ∧ get_ngrams "" 0 = [""] ∧
    get_ngrams "a b" 0 = ["", "", ""] ∧ get_ngrams "a b" (-1) = ["a", "", "", ""] := by
  refine ⟨rfl, rfl, rfl, rfl, rfl⟩

lemma overlap_eval_self : calculate_ngram_overlap "a b c d" "a b c d" 3 = 100 := by
  have h : ngramSet "a b c d" 3 ≠ ∅ := by decide
  have hi : (ngramSet "a b c d" 3 ∩ ngramSet "a b c d" 3).card = 2 := by decide
  have hc : (ngramSet "a b c d" 3).card = 2 := by decide
  simp only [calculate_ngram_overlap, if_neg h, hi, hc]
  norm_num

lemma overlap_eval_disjoint : calculate_ngram_overlap "a b c d" "x y z" 3 = 0 := by
  have h : ngramSet "a b c d" 3 ≠ ∅ := by decide
  have hi : (ngramSet "a b c d" 3 ∩ ngramSet "x y z" 3).card = 0 := by decide
  simp only [calculate_ngram_overlap, if_neg h, hi]
  norm_num

lemma extract_key_phrases_eval :
    extract_key_phrases
      "The quick brown fox jumps over the lazy dog. The quick brown fox jumps over the lazy dog. Completely different sentence with many various words here." 6 20 =
    ["The quick brown fox jumps over", "Completely different sentence with many various"] := by
  rfl

lemma strContains_eval : strContains "we found that x" "found that" = true ∧
    strContains "abc" "abd" = false ∧ strContains "abc" "" = true := by
  refine ⟨by decide, by decide, by decide⟩

/-! ### Basic lemmas about the similarity measures -/

lemma tf_nonneg (words : List String) (w : String) : 0 ≤ tf words w := by
  unfold tf
  positivity

lemma tf_sq_sum_pos {words : List String} (vocab : Finset String)
    (h : words ≠ []) (hsub : ∀ u ∈ words, u ∈ vocab) :
    0 < ∑ u ∈ vocab, (tf words u : ℝ) ^ 2 := by
  obtain ⟨a, as, rfl⟩ := List.exists_cons_of_ne_nil h
  refine Finset.sum_pos' (fun u _ => by positivity) ?_
  refine ⟨a, hsub a (List.mem_cons_self a as), ?_⟩
  have hcount : 0 < (a :: as).count a := by
    simp [List.count_cons_self]
  have hlen : 0 < (a :: as).length := by simp
  have htf : 0 < tf (a :: as) a := by
    unfold tf
    positivity
  positivity

lemma normTF_nonneg (vocab : Finset String) (f : String → ℚ) :
    0 ≤ normTF vocab f :=
  Real.sqrt_nonneg _

lemma dotTF_cast (vocab : Finset String) (f g : String → ℚ) :
    ((dotTF vocab f g : ℚ) : ℝ) = ∑ w ∈ vocab, (f w : ℝ) * (g w : ℝ) := by
  unfold dotTF
  push_cast
  rfl

lemma normTF_mul_self (vocab : Finset String) (f : String → ℚ) :
    normTF vocab f * normTF vocab f = ∑ w ∈ vocab, (f w : ℝ) ^ 2 := by
  unfold normTF
  exact Real.mul_self_sqrt (by positivity)

/-! ### C1: n-gram extraction with a non-positive window -/

/-- C1 counterexample: the claim says `get_ngrams` returns an empty
sequence for every `n ≤ 0`, but on the empty text with `n = 0` the code
produces the one-element list `[""]` (the comprehension ranges over
`range(len(words)-n+1)`, which is non-empty for `n ≤ 0`). -/
theorem C1_counterexample : get_ngrams "" 0 ≠ [] := by decide

/-- C1 (amended): for every text and every window length `n ≤ 0`,
`get_ngrams` raises no fault but returns a non-empty list of exactly
`len(words) - n + 1` degenerate n-grams, never the empty sequence. -/
theorem C1_nonpositive_window (text : String) (n : Int) (h : n ≤ 0) :
    get_ngrams text n ≠ [] ∧
    ((get_ngrams text n).length : Int) =
      ((clean_words text).length : Int) - n + 1 := by
  have hlen : (get_ngrams text n).length =
      (((clean_words text).length : Int) - n + 1).toNat := by
    simp [get_ngrams, intRange]
  constructor
  · rw [← List.length_pos]
    rw [hlen]
    omega
  · rw [hlen]
    omega

/-- Witness for C1 at `text = "a b"`, `n = -1`. -/
theorem C1_nonpositive_window_witness :
    get_ngrams "a b" (-1) ≠ [] ∧
    ((get_ngrams "a b" (-1)).length : Int) =
      ((clean_words "a b").length : Int) - (-1) + 1 :=
  C1_nonpositive_window "a b" (-1) (by decide)

/-! ### C6: the n-gram overlap formula -/

/-- C6: `calculate_ngram_overlap(a, b, n)` returns `0` when the n-gram
set of `a` is empty and `|A ∩ B| / |A| * 100` otherwise; the denominator
is the first document's n-gram set only. -/
theorem C6_overlap_formula (a b : String) (n : Int) :
    (ngramSet a n = ∅ → calculate_ngram_overlap a b n = 0) ∧
    (ngramSet a n ≠ ∅ →
      calculate_ngram_overlap a b n =
        ((ngramSet a n ∩ ngramSet b n).card : ℚ) /
          ((ngramSet a n).card : ℚ) * 100) := by
  constructor
  · intro h
    simp [calculate_ngram_overlap, h]
  · intro h
    simp [calculate_ngram_overlap, h]

/-- Witness for C6 at `a = b = "a b c d"`, `n = 3`. -/
theorem C6_overlap_formula_witness :
    calculate_ngram_overlap "a b c d" "a b c d" 3 =
      ((ngramSet "a b c d" 3 ∩ ngramSet "a b c d" 3).card : ℚ) /
        ((ngramSet "a b c d" 3).card : ℚ) * 100 :=
  (C6_overlap_formula "a b c d" "a b c d" 3).2 (by decide)

/-! ### C2: self-similarity of the TF-cosine measure -/

/-- C2: for every text whose normalized token sequence is non-empty,
`calculate_tfidf_similarity(x, x)` is exactly `100` (in the exact-real
model of the floating-point arithmetic). -/
theorem C2_self_similarity (x : String) (h : clean_words x ≠ []) :
    calculate_tfidf_similarity x x = 100 := by
  have hsub : ∀ u ∈ clean_words x, u ∈ vocabOf (clean_words x) (clean_words x) := by
    intro u hu
    simp [vocabOf, hu]
  have hS : 0 < ∑ u ∈ vocabOf (clean_words x) (clean_words x),
      (tf (clean_words x) u : ℝ) ^ 2 :=
    tf_sq_sum_pos _ h hsub
  have hnorm : normTF (vocabOf (clean_words x) (clean_words x)) (tf (clean_words x)) ≠ 0 := by
    unfold normTF
    exact ne_of_gt (Real.sqrt_pos.mpr hS)
  simp only [calculate_tfidf_similarity]
  rw [if_neg (by simp [h]), if_neg (by simp [hnorm])]
  rw [dotTF_cast, normTF_mul_self]
  have hdot : ∑ w ∈ vocabOf (clean_words x) (clean_words x),
      (tf (clean_words x) w : ℝ) * (tf (clean_words x) w : ℝ) =
      ∑ w ∈ vocabOf (clean_words x) (clean_words x), (tf (clean_words x) w : ℝ) ^ 2 := by
    refine Finset.sum_congr rfl fun w _ => ?_
    ring
  rw [hdot, div_self (ne_of_gt hS)]
  norm_num

/-- Witness for C2 at `x = "a"`. -/
theorem C2_self_similarity_witness :
    calculate_tfidf_similarity "a" "a" = 100 :=
  C2_self_similarity "a" (by decide)

/-! ### Bounds on the similarity measures -/

lemma tfidf_nonneg (a b : String) : 0 ≤ calculate_tfidf_similarity a b := by
  simp only [calculate_tfidf_similarity]
  split_ifs with h1 h2
  · exact le_refl 0
  · exact le_refl 0
  · have hdot : (0 : ℝ) ≤ (dotTF (vocabOf (clean_words a) (clean_words b))
        (tf (clean_words a)) (tf (clean_words b)) : ℚ) := by
      rw [dotTF_cast]
      exact Finset.sum_nonneg fun w _ =>
        mul_nonneg (by exact_mod_cast tf_nonneg _ w) (by exact_mod_cast tf_nonneg _ w)
    have hn1 := normTF_nonneg (vocabOf (clean_words a) (clean_words b)) (tf (clean_words a))
    have hn2 := normTF_nonneg (vocabOf (clean_words a) (clean_words b)) (tf (clean_words b))
    have := mul_nonneg hn1 hn2
    positivity

lemma tfidf_le_100 (a b : String) : calculate_tfidf_similarity a b ≤ 100 := by
  simp only [calculate_tfidf_similarity]
  split_ifs with h1 h2
  · norm_num
  · norm_num
  · push_neg at h2
    obtain ⟨hn1, hn2⟩ := h2
    have hpos1 : 0 < normTF (vocabOf (clean_words a) (clean_words b)) (tf (clean_words a)) :=
      lt_of_le_of_ne (normTF_nonneg _ _) (Ne.symm hn1)
    have hpos2 : 0 < normTF (vocabOf (clean_words a) (clean_words b)) (tf (clean_words b)) :=
      lt_of_le_of_ne (normTF_nonneg _ _) (Ne.symm hn2)
    have hcs : ((dotTF (vocabOf (clean_words a) (clean_words b))
        (tf (clean_words a)) (tf (clean_words b)) : ℚ) : ℝ) ≤
        normTF (vocabOf (clean_words a) (clean_words b)) (tf (clean_words a)) *
          normTF (vocabOf (clean_words a) (clean_words b)) (tf (clean_words b)) := by
      rw [dotTF_cast]
      unfold normTF
      exact Real.sum_mul_le_sqrt_mul_sqrt _ _ _
    have hdiv : ((dotTF (vocabOf (clean_words a) (clean_words b))
        (tf (clean_words a)) (tf (clean_words b)) : ℚ) : ℝ) /
        (normTF (vocabOf (clean_words a) (clean_words b)) (tf (clean_words a)) *
          normTF (vocabOf (clean_words a) (clean_words b)) (tf (clean_words b))) ≤ 1 :=
      (div_le_one (mul_pos hpos1 hpos2)).mpr hcs
    calc ((dotTF (vocabOf (clean_words a) (clean_words b))
        (tf (clean_words a)) (tf (clean_words b)) : ℚ) : ℝ) /
        (normTF (vocabOf (clean_words a) (clean_words b)) (tf (clean_words a)) *
          normTF (vocabOf (clean_words a) (clean_words b)) (tf (clean_words b))) * 100
        ≤ 1 * 100 := by
          exact mul_le_mul_of_nonneg_right hdiv (by norm_num)
      _ = 100 := by norm_num

lemma overlap_nonneg (a b : String) (n : Int) :
    0 ≤ calculate_ngram_overlap a b n := by
  simp only [calculate_ngram_overlap]
  split_ifs
  · exact le_refl 0
  · positivity

lemma overlap_le_100 (a b : String) (n : Int) :
    calculate_ngram_overlap a b n ≤ 100 := by
  simp only [calculate_ngram_overlap]
  split_ifs with h
  · norm_num
  · have hcard : 0 < (ngramSet a n).card := Finset.card_pos.mpr
      (Finset.nonempty_iff_ne_empty.mpr h)
    have hle : (ngramSet a n ∩ ngramSet b n).card ≤ (ngramSet a n).card :=
      Finset.card_le_card Finset.inter_subset_left
    have hdiv : ((ngramSet a n ∩ ngramSet b n).card : ℚ) / ((ngramSet a n).card : ℚ) ≤ 1 := by
      rw [div_le_one (by exact_mod_cast hcard)]
      exact_mod_cast hle
    calc ((ngramSet a n ∩ ngramSet b n).card : ℚ) / ((ngramSet a n).card : ℚ) * 100
        ≤ 1 * 100 := mul_le_mul_of_nonneg_right hdiv (by norm_num)
      _ = 100 := by norm_num

lemma scoreRef_nonneg (text : String) (ref : RefEntry) :
    0 ≤ (scoreRef text ref).similarity := by
  simp only [scoreRef]
  have h1 := tfidf_nonneg text ref.text
  have h2 : (0 : ℝ) ≤ (calculate_ngram_overlap text ref.text 3 : ℝ) := by
    exact_mod_cast overlap_nonneg text ref.text 3
  nlinarith

lemma scoreRef_le_100 (text : String) (ref : RefEntry) :
    (scoreRef text ref).similarity ≤ 100 := by
  simp only [scoreRef]
  have h1 := tfidf_le_100 text ref.text
  have h1n := tfidf_nonneg text ref.text
  have h2 : (calculate_ngram_overlap text ref.text 3 : ℝ) ≤ 100 := by
    exact_mod_cast overlap_le_100 text ref.text 3
  have h2n : (0 : ℝ) ≤ (calculate_ngram_overlap text ref.text 3 : ℝ) := by
    exact_mod_cast overlap_nonneg text ref.text 3
  nlinarith

/-! ### Lemmas about the running maximum -/

lemma le_maxStep_left (m : ℝ) (s : SourceMatch) : m ≤ maxStep m s := by
  unfold maxStep
  split_ifs with h
  · exact le_of_lt h
  · exact le_refl m

lemma le_maxStep_right (m : ℝ) (s : SourceMatch) : s.similarity ≤ maxStep m s := by
  unfold maxStep
  split_ifs with h
  · exact le_refl _
  · exact le_of_not_lt h

lemma maxStep_le {m B : ℝ} {s : SourceMatch} (hm : m ≤ B)
    (hs : s.similarity ≤ B) : maxStep m s ≤ B := by
  unfold maxStep
  split_ifs
  · exact hs
  · exact hm

lemma maxStep_eq_or (m : ℝ) (s : SourceMatch) :
    maxStep m s = m ∨ maxStep m s = s.similarity := by
  unfold maxStep
  split_ifs
  · exact Or.inr rfl
  · exact Or.inl rfl

lemma le_foldl_maxStep_init (l : List SourceMatch) :
    ∀ m : ℝ, m ≤ l.foldl maxStep m := by
  induction l with
  | nil => intro m; exact le_refl m
  | cons a l ih =>
    intro m
    exact le_trans (le_maxStep_left m a) (ih (maxStep m a))

lemma le_foldl_maxStep_mem (l : List SourceMatch) :
    ∀ (m : ℝ) (s : SourceMatch), s ∈ l → s.similarity ≤ l.foldl maxStep m := by
  induction l with
  | nil => intro m s hs; cases hs
  | cons a l ih =>
    intro m s hs
    rcases List.mem_cons.mp hs with h | h
    · subst h
      exact le_trans (le_maxStep_right m s) (le_foldl_maxStep_init l (maxStep m s))
    · exact ih (maxStep m a) s h

lemma foldl_maxStep_le (l : List SourceMatch) :
    ∀ {m B : ℝ}, m ≤ B → (∀ s ∈ l, s.similarity ≤ B) → l.foldl maxStep m ≤ B := by
  induction l with
  | nil => intro m B hm _; exact hm
  | cons a l ih =>
    intro m B hm hl
    exact ih (maxStep_le hm (hl a (List.mem_cons_self a l)))
      (fun s hs => hl s (List.mem_cons_of_mem a hs))

lemma foldl_maxStep_eq_init_or_mem (l : List SourceMatch) :
    ∀ m : ℝ, l.foldl maxStep m = m ∨ ∃ s ∈ l, l.foldl maxStep m = s.similarity := by
  induction l with
  | nil => intro m; exact Or.inl rfl
  | cons a l ih =>
    intro m
    rcases ih (maxStep m a) with h | ⟨s, hs, h⟩
    · rcases maxStep_eq_or m a with h2 | h2
      · exact Or.inl (by rw [List.foldl_cons, h, h2])
      · exact Or.inr ⟨a, List.mem_cons_self a l, by rw [List.foldl_cons, h, h2]⟩
    · exact Or.inr ⟨s, List.mem_cons_of_mem a hs, by rw [List.foldl_cons, h]⟩

/-! ### C5: all similarity values lie in [0, 100] -/

/-- C5: both similarity measures return values in `[0, 100]` for all
inputs, and consequently every `similarity` in `sources`, the
`overall_score` and the `max_match` of any `analyze` result lie in
`[0, 100]`. -/
theorem C5_similarity_bounds :
    (∀ a b : String,
      0 ≤ calculate_tfidf_similarity a b ∧ calculate_tfidf_similarity a b ≤ 100) ∧
    (∀ (a b : String) (n : Int),
      0 ≤ calculate_ngram_overlap a b n ∧ calculate_ngram_overlap a b n ≤ 100) ∧
    (∀ (refs : List RefEntry) (c : Checker) (text : String) (ua vb : Bool)
        (o : ApiOutcomes) (now : String),
      (∀ s ∈ (analyzeWith refs c text ua vb o now).sources,
        0 ≤ s.similarity ∧ s.similarity ≤ 100) ∧
      (0 ≤ (analyzeWith refs c text ua vb o now).overall_score ∧
        (analyzeWith refs c text ua vb o now).overall_score ≤ 100) ∧
      (0 ≤ (analyzeWith refs c text ua vb o now).max_match ∧
        (analyzeWith refs c text ua vb o now).max_match ≤ 100)) := by
  have hsrc : ∀ (refs : List RefEntry) (text : String),
      ∀ s ∈ localSources refs text, 0 ≤ s.similarity ∧ s.similarity ≤ 100 := by
    intro refs text s hs
    obtain ⟨r, _, rfl⟩ := List.mem_map.mp hs
    exact ⟨scoreRef_nonneg text r, scoreRef_le_100 text r⟩
  refine ⟨fun a b => ⟨tfidf_nonneg a b, tfidf_le_100 a b⟩,
    fun a b n => ⟨overlap_nonneg a b n, overlap_le_100 a b n⟩,
    fun refs c text ua vb o now => ⟨?_, ?_, ?_⟩⟩
  · intro s hs
    have : s ∈ localSources refs text := by
      have := List.mem_mergeSort.mp hs
      exact this
    exact hsrc refs text s this
  · show 0 ≤ overallScore (localSources refs text) ∧
      overallScore (localSources refs text) ≤ 100
    unfold overallScore
    by_cases hemp : ((localSources refs text).map (fun s => s.similarity)).isEmpty
    · simp [hemp]
    · have hlen : 0 < ((localSources refs text).map (fun s => s.similarity)).length := by
        cases hml : (localSources refs text).map (fun s => s.similarity) with
        | nil => rw [hml] at hemp; simp at hemp
        | cons x xs => simp [hml]
      have hmem : ∀ x ∈ (localSources refs text).map (fun s => s.similarity),
          0 ≤ x ∧ x ≤ 100 := by
        intro x hx
        obtain ⟨s, hs, rfl⟩ := List.mem_map.mp hx
        exact hsrc refs text s hs
      constructor
      · simp only [hemp, if_false, Bool.false_eq_true]
        exact div_nonneg (List.sum_nonneg fun x hx => (hmem x hx).1)
          (by positivity)
      · simp only [hemp, if_false, Bool.false_eq_true]
        rw [div_le_iff₀ (by exact_mod_cast hlen)]
        calc ((localSources refs text).map (fun s => s.similarity)).sum
            ≤ ((localSources refs text).map (fun s => s.similarity)).length • (100:ℝ) :=
              List.sum_le_card_nsmul _ _ (fun x hx => (hmem x hx).2)
          _ = 100 * ((localSources refs text).map (fun s => s.similarity)).length := by
              rw [nsmul_eq_mul]; ring
  · show 0 ≤ maxMatch (localSources refs text) ∧ maxMatch (localSources refs text) ≤ 100
    unfold maxMatch
    exact ⟨le_foldl_maxStep_init _ 0,
      foldl_maxStep_le _ (by norm_num) (fun s hs => (hsrc refs text s hs).2)⟩

/-- Witness for C5 at concrete texts. -/
theorem C5_similarity_bounds_witness :
    0 ≤ calculate_tfidf_similarity "a" "b" ∧ calculate_tfidf_similarity "a" "b" ≤ 100 :=
  C5_similarity_bounds.1 "a" "b"

/-! ### C3: overall score is the mean, max_match the maximum -/

/-- C3: in every `analyze` result, `overall_score` is the arithmetic mean
of the similarity values of `sources` (`0` when there are none) and
`max_match` is their maximum (`0` when there are none). -/
theorem C3_mean_and_max (refs : List RefEntry) (c : Checker) (text : String)
    (ua vb : Bool) (o : ApiOutcomes) (now : String) :
    ((analyzeWith refs c text ua vb o now).overall_score =
      if ((analyzeWith refs c text ua vb o now).sources.map (fun s => s.similarity)).isEmpty
      then 0
      else ((analyzeWith refs c text ua vb o now).sources.map (fun s => s.similarity)).sum /
        (((analyzeWith refs c text ua vb o now).sources.map (fun s => s.similarity)).length : ℝ)) ∧
    ((analyzeWith refs c text ua vb o now).sources = [] →
      (analyzeWith refs c text ua vb o now).overall_score = 0 ∧
      (analyzeWith refs c text ua vb o now).max_match = 0) ∧
    (∀ s ∈ (analyzeWith refs c text ua vb o now).sources,
      s.similarity ≤ (analyzeWith refs c text ua vb o now).max_match) ∧
    ((analyzeWith refs c text ua vb o now).sources ≠ [] →
      ∃ s ∈ (analyzeWith refs c text ua vb o now).sources,
        (analyzeWith refs c text ua vb o now).max_match = s.similarity) := by
  have hsources : (analyzeWith refs c text ua vb o now).sources =
      sortSources (localSources refs text) := rfl
  have hover : (analyzeWith refs c text ua vb o now).overall_score =
      overallScore (localSources refs text) := rfl
  have hmax : (analyzeWith refs c text ua vb o now).max_match =
      maxMatch (localSources refs text) := rfl
  have hperm : List.Perm (sortSources (localSources refs text)) (localSources refs text) :=
    List.mergeSort_perm (localSources refs text) bySimDesc
  have hpermmap : List.Perm
      ((sortSources (localSources refs text)).map (fun s => s.similarity))
      ((localSources refs text).map (fun s => s.similarity)) :=
    hperm.map _
  refine ⟨?_, ?_, ?_, ?_⟩
  · rw [hover, hsources]
    unfold overallScore
    rw [hpermmap.sum_eq, hpermmap.length_eq]
    have hempty : ((sortSources (localSources refs text)).map (fun s => s.similarity)).isEmpty =
        ((localSources refs text).map (fun s => s.similarity)).isEmpty := by
      rw [Bool.eq_iff_iff, List.isEmpty_iff_length_eq_zero,
        List.isEmpty_iff_length_eq_zero, hpermmap.length_eq]
    rw [hempty]
  · intro hnil
    rw [hsources] at hnil
    have hnil0 : localSources refs text = [] := by
      have h := hperm
      rw [hnil] at h
      exact List.perm_nil.mp h.symm
    rw [hover, hmax, hnil0]
    constructor
    · simp [overallScore]
    · simp [maxMatch]
  · intro s hs
    rw [hsources] at hs
    rw [hmax]
    exact le_foldl_maxStep_mem _ 0 s (hperm.mem_iff.mp hs)
  · intro hnil
    rw [hsources] at hnil
    rw [hmax, hsources]
    have hnil0 : localSources refs text ≠ [] := by
      intro h0
      apply hnil
      rw [h0]
      simp [sortSources]
    unfold maxMatch
    rcases foldl_maxStep_eq_init_or_mem (localSources refs text) 0 with h | ⟨s, hs, h⟩
    · obtain ⟨s0, l0, hl0⟩ := List.exists_cons_of_ne_nil hnil0
      have hs0mem : s0 ∈ localSources refs text := by rw [hl0]; exact List.mem_cons_self _ _
      have hub := le_foldl_maxStep_mem (localSources refs text) 0 s0 hs0mem
      rw [h] at hub
      have hlb : 0 ≤ s0.similarity := by
        obtain ⟨r, _, rfl⟩ := List.mem_map.mp hs0mem
        exact scoreRef_nonneg text r
      have : s0.similarity = 0 := le_antisymm hub hlb
      exact ⟨s0, hperm.mem_iff.mpr hs0mem, by rw [h, this]⟩
    · exact ⟨s, hperm.mem_iff.mpr hs, h⟩

/-- Witness for C3 with the empty corpus: both aggregates are `0`. -/
theorem C3_mean_and_max_witness :
    (analyzeWith [] ⟨false, false, false⟩ "" false false ⟨false, false⟩ "t").overall_score = 0 ∧
    (analyzeWith [] ⟨false, false, false⟩ "" false false ⟨false, false⟩ "t").max_match = 0 :=
  (C3_mean_and_max [] ⟨false, false, false⟩ "" false false ⟨false, false⟩ "t").2.1
    (by simp [analyzeWith, localSources, sortSources])

/-! ### C4: sources are stably sorted by descending similarity -/

lemma bySimDesc_trans : ∀ a b c : SourceMatch,
    bySimDesc a b → bySimDesc b c → bySimDesc a c := by
  intro a b c hab hbc
  simp only [bySimDesc, decide_eq_true_eq] at *
  exact le_trans hbc hab

lemma bySimDesc_total : ∀ a b : SourceMatch, bySimDesc a b || bySimDesc b a := by
  intro a b
  simp only [bySimDesc, Bool.or_eq_true, decide_eq_true_eq]
  exact le_total b.similarity a.similarity

open Classical in
/-- C4: the `sources` list of every `analyze` result is sorted in
non-increasing order of `similarity`, and for every similarity value the
entries carrying it appear in exactly the order of their reference
entries in the corpus (the sort is stable). -/
theorem C4_sorted_stable (refs : List RefEntry) (c : Checker) (text : String)
    (ua vb : Bool) (o : ApiOutcomes) (now : String) :
    List.Pairwise (fun a b => b.similarity ≤ a.similarity)
      (analyzeWith refs c text ua vb o now).sources ∧
    ∀ v : ℝ, (analyzeWith refs c text ua vb o now).sources.filter
        (fun s => decide (s.similarity = v)) =
      (localSources refs text).filter (fun s => decide (s.similarity = v)) := by
  have hsources : (analyzeWith refs c text ua vb o now).sources =
      (localSources refs text).mergeSort bySimDesc := rfl
  constructor
  · rw [hsources]
    have hp := List.sorted_mergeSort bySimDesc_trans bySimDesc_total
      (localSources refs text)
    exact hp.imp (fun h => by simpa [bySimDesc] using h)
  · intro v
    rw [hsources]
    set p : SourceMatch → Bool := fun s => decide (s.similarity = v) with hp
    have hfsub : List.Sublist ((localSources refs text).filter p) (localSources refs text) :=
      List.filter_sublist _
    have hpair : ((localSources refs text).filter p).Pairwise (fun a b => bySimDesc a b) := by
      apply List.pairwise_of_forall_mem_list
      intro a ha b hb
      have hav : a.similarity = v := by
        have := List.of_mem_filter ha
        simpa [hp] using this
      have hbv : b.similarity = v := by
        have := List.of_mem_filter hb
        simpa [hp] using this
      simp [bySimDesc, hav, hbv]
    have h1 : List.Sublist ((localSources refs text).filter p)
        ((localSources refs text).mergeSort bySimDesc) :=
      List.sublist_mergeSort bySimDesc_trans bySimDesc_total hpair hfsub
    have h2 : List.Sublist ((localSources refs text).filter p)
        (((localSources refs text).mergeSort bySimDesc).filter p) := by
      have hsubf := h1.filter p
      have hself : ((localSources refs text).filter p).filter p =
          (localSources refs text).filter p := by
        apply List.filter_eq_self.mpr
        intro a ha
        exact List.of_mem_filter ha
      rwa [hself] at hsubf
    have h3 : List.Perm (((localSources refs text).mergeSort bySimDesc).filter p)
        ((localSources refs text).filter p) :=
      (List.mergeSort_perm (localSources refs text) bySimDesc).filter p
    exact (h2.eq_of_length h3.length_eq.symm).symm

/-- Witness for C4 with the default corpus on a concrete text. -/
theorem C4_sorted_stable_witness :
    List.Pairwise (fun a b => b.similarity ≤ a.similarity)
      (analyzeWith ACADEMIC_REFERENCES ⟨false, false, false⟩ "tuberculosis report"
        false false ⟨false, false⟩ "t").sources :=
  (C4_sorted_stable ACADEMIC_REFERENCES ⟨false, false, false⟩ "tuberculosis report"
    false false ⟨false, false⟩ "t").1

/-! ### C7: key-phrase extraction -/

/-- The uncapped deduplicated phrase stream of a whole text. -/
def allKeyPhrases (text : String) (min_words : Nat) : List String :=
  ekpAllLoop min_words (splitCharsOn isSentTerm text.data) []

/-- The candidate phrase of each sentence with at least `min_words`
words, in sentence order (before deduplication and the length filter). -/
def candPhrases (min_words : Nat) (sents : List (List Char)) : List String :=
  sents.filterMap (fun s =>
    if min_words ≤ (sentWords s).length then
      some (" ".intercalate ((sentWords s).take min_words))
    else none)

lemma ekpLoop_eq_take (minw maxp : Nat) :
    ∀ (sents : List (List Char)) (seen acc : List String), acc.length < maxp →
    ekpLoop minw maxp sents seen acc =
      acc.reverse ++ (ekpAllLoop minw sents seen).take (maxp - acc.length) := by
  intro sents
  induction sents with
  | nil =>
    intro seen acc h
    simp [ekpLoop, ekpAllLoop]
  | cons s rest ih =>
    intro seen acc h
    simp only [ekpLoop, ekpAllLoop]
    by_cases h1 : minw ≤ (sentWords s).length
    · simp only [if_pos h1]
      by_cases h2 : lowerStr (" ".intercalate (List.take minw (sentWords s))) ∉ seen ∧
          20 < (" ".intercalate (List.take minw (sentWords s))).length
      · simp only [if_pos h2]
        have hsub : maxp - acc.length = (maxp - acc.length - 1) + 1 := by omega
        rw [hsub, List.take_succ_cons]
        by_cases h3 : maxp ≤ acc.length + 1
        · simp only [if_pos h3]
          have h0 : maxp - acc.length - 1 = 0 := by omega
          rw [h0, List.take_zero, List.reverse_cons]
        · simp only [if_neg h3]
          rw [ih _ _ (by simp; omega)]
          simp only [List.reverse_cons, List.append_assoc, List.length_cons,
            List.cons_append, List.nil_append]
          rw [Nat.sub_sub]
      · simp only [if_neg h2]
        exact ih seen acc h
    · simp only [if_neg h1]
      exact ih seen acc h

lemma extract_eq_take (text : String) (minw maxp : Nat) (h : 1 ≤ maxp) :
    extract_key_phrases text minw maxp = (allKeyPhrases text minw).take maxp := by
  unfold extract_key_phrases allKeyPhrases
  rw [ekpLoop_eq_take minw maxp _ [] [] (by simpa using h)]
  simp

lemma ekpAllLoop_lower_nodup (minw : Nat) :
    ∀ (sents : List (List Char)) (seen : List String),
    ((ekpAllLoop minw sents seen).map lowerStr).Nodup ∧
      ∀ q ∈ (ekpAllLoop minw sents seen).map lowerStr, q ∉ seen := by
  intro sents
  induction sents with
  | nil => intro seen; simp [ekpAllLoop]
  | cons s rest ih =>
    intro seen
    simp only [ekpAllLoop]
    by_cases h1 : minw ≤ (sentWords s).length
    · simp only [if_pos h1]
      by_cases h2 : lowerStr (" ".intercalate (List.take minw (sentWords s))) ∉ seen ∧
          20 < (" ".intercalate (List.take minw (sentWords s))).length
      · simp only [if_pos h2]
        obtain ⟨ihn, ihs⟩ := ih (lowerStr (" ".intercalate (List.take minw (sentWords s))) :: seen)
        refine ⟨?_, ?_⟩
        · rw [List.map_cons, List.nodup_cons]
          refine ⟨fun hmem => ?_, ihn⟩
          have := ihs _ hmem
          simp at this
        · intro q hq
          rw [List.map_cons, List.mem_cons] at hq
          rcases hq with hq | hq
          · rw [hq]; exact h2.1
          · have := ihs q hq
            intro hseen
            exact this (List.mem_cons_of_mem _ hseen)
      · simp only [if_neg h2]
        exact ih seen
    · simp only [if_neg h1]
      exact ih seen

lemma ekpAllLoop_sublist (minw : Nat) :
    ∀ (sents : List (List Char)) (seen : List String),
    List.Sublist (ekpAllLoop minw sents seen) (candPhrases minw sents) := by
  intro sents
  induction sents with
  | nil => intro seen; simp [ekpAllLoop, candPhrases]
  | cons s rest ih =>
    intro seen
    simp only [ekpAllLoop, candPhrases, List.filterMap_cons]
    by_cases h1 : minw ≤ (sentWords s).length
    · simp only [if_pos h1]
      by_cases h2 : lowerStr (" ".intercalate (List.take minw (sentWords s))) ∉ seen ∧
          20 < (" ".intercalate (List.take minw (sentWords s))).length
      · simp only [if_pos h2]
        exact List.Sublist.cons₂ _ (ih _)
      · simp only [if_neg h2]
        exact List.Sublist.cons _ (ih seen)
    · simp only [if_neg h1]
      exact ih seen

/-- C7 (amended): for every text and `max_phrases ≥ 1`, the extracted
phrases are pairwise distinct case-insensitively, appear in sentence
order (they form a sublist of the per-sentence candidate phrases), number
at most `max_phrases`, and are exactly `max_phrases` many as soon as the
uncapped deduplicated phrase stream reaches that many entries; indeed the
result is precisely the first `max_phrases` entries of that stream. -/
theorem C7_extract_key_phrases (text : String) (minw maxp : Nat) (h : 1 ≤ maxp) :
    ((extract_key_phrases text minw maxp).map lowerStr).Nodup ∧
    List.Sublist (extract_key_phrases text minw maxp)
      (candPhrases minw (splitCharsOn isSentTerm text.data)) ∧
    (extract_key_phrases text minw maxp).length ≤ maxp ∧
    (maxp ≤ (allKeyPhrases text minw).length →
      (extract_key_phrases text minw maxp).length = maxp) ∧
    extract_key_phrases text minw maxp = (allKeyPhrases text minw).take maxp := by
  have htake := extract_eq_take text minw maxp h
  have hsubAll : List.Sublist (extract_key_phrases text minw maxp)
      (allKeyPhrases text minw) := by
    rw [htake]
    exact List.take_sublist _ _
  refine ⟨?_, ?_, ?_, ?_, htake⟩
  · have hnodup : ((allKeyPhrases text minw).map lowerStr).Nodup :=
      (ekpAllLoop_lower_nodup minw _ []).1
    exact hnodup.sublist (hsubAll.map lowerStr)
  · exact hsubAll.trans (ekpAllLoop_sublist minw _ [])
  · rw [htake, List.length_take]
    exact min_le_left _ _
  · intro hge
    rw [htake, List.length_take]
    omega

/-- Witness for C7 at a concrete text with one qualifying sentence. -/
theorem C7_extract_key_phrases_witness :
    (extract_key_phrases "abcdefghij klmnopqrstu vwxyz" 1 1).length ≤ 1 :=
  (C7_extract_key_phrases "abcdefghij klmnopqrstu vwxyz" 1 1 (by decide)).2.2.1

/-- C7 counterexample: with `max_phrases = 0` the code still emits one
phrase (the cap is checked only after an append), so the claimed bound
`length ≤ max_phrases` fails. -/
theorem C7_counterexample :
    ¬ (extract_key_phrases "abcdefghijklmnopqrstuvwxyz" 1 0).length ≤ 0 := by
  decide

/-! ### C8: the empty input against the default corpus -/

lemma tfidf_empty_left (b : String) : calculate_tfidf_similarity "" b = 0 := by
  have h : clean_words "" = [] := rfl
  simp [calculate_tfidf_similarity, h]

lemma overlap_empty_left (b : String) : calculate_ngram_overlap "" b 3 = 0 := by
  have h : ngramSet "" 3 = ∅ := by decide
  simp [calculate_ngram_overlap, h]

lemma scoreRef_empty_text (ref : RefEntry) : (scoreRef "" ref).similarity = 0 := by
  simp [scoreRef, tfidf_empty_left, overlap_empty_left]

lemma localSources_empty_sim :
    ∀ s ∈ localSources ACADEMIC_REFERENCES "", s.similarity = 0 := by
  intro s hs
  obtain ⟨r, _, rfl⟩ := List.mem_map.mp hs
  exact scoreRef_empty_text r

/-- C8: `analyze` on the empty string against the default 5-entry corpus
raises no fault (the embedding is total) and yields zero aggregates,
`sources_checked = 5`, zero word counts, and one source per corpus entry,
each with similarity `0`. -/
theorem C8_empty_text :
    (analyze ⟨false, false, false⟩ "" false true ⟨false, false⟩ "t").overall_score = 0 ∧
    (analyze ⟨false, false, false⟩ "" false true ⟨false, false⟩ "t").max_match = 0 ∧
    (analyze ⟨false, false, false⟩ "" false true ⟨false, false⟩ "t").sources_checked = 5 ∧
    (analyze ⟨false, false, false⟩ "" false true ⟨false, false⟩ "t").word_count = 0 ∧
    (analyze ⟨false, false, false⟩ "" false true ⟨false, false⟩ "t").unique_words = 0 ∧
    (analyze ⟨false, false, false⟩ "" false true ⟨false, false⟩ "t").sources.map
      (fun s => s.similarity) = [0, 0, 0, 0, 0] ∧
    (analyze ⟨false, false, false⟩ "" false true ⟨false, false⟩ "t").sources.map
      (fun s => s.name) = ACADEMIC_REFERENCES.map (fun ref => ref.name) := by
  have hsorted : (analyze ⟨false, false, false⟩ "" false true ⟨false, false⟩ "t").sources =
      localSources ACADEMIC_REFERENCES "" := by
    show sortSources (localSources ACADEMIC_REFERENCES "") = _
    unfold sortSources
    apply List.mergeSort_of_sorted
    apply List.pairwise_of_forall_mem_list
    intro a ha b hb
    simp [bySimDesc, localSources_empty_sim a ha, localSources_empty_sim b hb]
  have hmap : (localSources ACADEMIC_REFERENCES "").map (fun s => s.similarity) =
      [0, 0, 0, 0, 0] := by
    simp [localSources, ACADEMIC_REFERENCES, scoreRef_empty_text]
  refine ⟨?_, ?_, ?_, ?_, ?_, ?_, ?_⟩
  · show overallScore (localSources ACADEMIC_REFERENCES "") = 0
    simp only [overallScore, hmap]
    norm_num
  · show maxMatch (localSources ACADEMIC_REFERENCES "") = 0
    unfold maxMatch
    exact le_antisymm
      (foldl_maxStep_le _ le_rfl
        (fun s hs => le_of_eq (localSources_empty_sim s hs)))
      (le_foldl_maxStep_init _ 0)
  · show (localSources ACADEMIC_REFERENCES "").length = 5
    simp [localSources, ACADEMIC_REFERENCES]
  · rfl
  · rfl
  · rw [hsorted, hmap]
  · rw [hsorted]
    simp [localSources, scoreRef, ACADEMIC_REFERENCES]

/-! ### C9: determinism modulo timestamp and external outcomes -/

/-- C9 counterexample: with Copyleaks credentials configured and
`use_apis = verbose = True`, two calls with identical text and flags but
different remote outcomes produce different `api_status` fields, so the
result is not determined by `(text, corpus, flags)` alone as the claim
states. -/
theorem C9_counterexample :
    (analyze (mkChecker { copyleaks_email := some "e", copyleaks_key := some "k" })
      "w" true true ⟨true, true⟩ "t").api_status ≠
    (analyze (mkChecker { copyleaks_email := some "e", copyleaks_key := some "k" })
      "w" true true ⟨false, false⟩ "t").api_status := by
  decide

/-- C9 (amended): two `analyze` calls with identical input text, corpus
and flags produce results that are identical in every field except
`timestamp` and `api_status`; `api_status` itself is identical whenever
the external outcomes are the same or the API block is skipped
(`use_apis && verbose = false`). -/
theorem C9_determinism_mod_timestamp (c : Checker) (text : String)
    (ua vb : Bool) (o1 o2 : ApiOutcomes) (t1 t2 : String) :
    (analyze c text ua vb o1 t1).overall_score = (analyze c text ua vb o2 t2).overall_score ∧
    (analyze c text ua vb o1 t1).word_count = (analyze c text ua vb o2 t2).word_count ∧
    (analyze c text ua vb o1 t1).unique_words = (analyze c text ua vb o2 t2).unique_words ∧
    (analyze c text ua vb o1 t1).max_match = (analyze c text ua vb o2 t2).max_match ∧
    (analyze c text ua vb o1 t1).sources_checked = (analyze c text ua vb o2 t2).sources_checked ∧
    (analyze c text ua vb o1 t1).sources = (analyze c text ua vb o2 t2).sources ∧
    (analyze c text ua vb o1 t1).key_phrases = (analyze c text ua vb o2 t2).key_phrases ∧
    (o1 = o2 → (analyze c text ua vb o1 t1).api_status = (analyze c text ua vb o2 t2).api_status) ∧
    ((ua && vb) = false →
      (analyze c text ua vb o1 t1).api_status = (analyze c text ua vb o2 t2).api_status) := by
  refine ⟨rfl, rfl, rfl, rfl, rfl, rfl, rfl, ?_, ?_⟩
  · intro h
    rw [h]
    rfl
  · intro h
    show apiStatusAfter c ua vb o1 = apiStatusAfter c ua vb o2
    cases ua with
    | false => simp [apiStatusAfter]
    | true =>
      have hvb : vb = false := by simpa using h
      subst hvb
      simp [apiStatusAfter]

/-- Witness for C9 with equal outcomes. -/
theorem C9_determinism_witness :
    (analyze ⟨false, false, false⟩ "w" true true ⟨true, false⟩ "t1").api_status =
    (analyze ⟨false, false, false⟩ "w" true true ⟨true, false⟩ "t2").api_status :=
  (C9_determinism_mod_timestamp ⟨false, false, false⟩ "w" true true
    ⟨true, false⟩ ⟨true, false⟩ "t1" "t2").2.2.2.2.2.2.2.1 rfl

/-! ### C10: no external invocation without use_apis and verbose -/

/-- C10: whenever `use_apis && verbose` is false (in particular for every
call with `verbose = False`, even with `use_apis = True`), the result is
entirely independent of the external services (two runs with different
remote outcomes coincide exactly, timestamp included) and `api_status`
keeps its initial `Ready` / `Not configured` / `Active` values. -/
theorem C10_no_external_calls (c : Checker) (text : String) (ua vb : Bool)
    (o1 o2 : ApiOutcomes) (now : String) (h : (ua && vb) = false) :
    analyze c text ua vb o1 now = analyze c text ua vb o2 now ∧
    (analyze c text ua vb o1 now).api_status = initApiStatus c := by
  have hst : ∀ o : ApiOutcomes, apiStatusAfter c ua vb o = initApiStatus c := by
    intro o
    cases ua with
    | false => simp [apiStatusAfter]
    | true =>
      have hvb : vb = false := by simpa using h
      subst hvb
      simp [apiStatusAfter]
  constructor
  · show analyzeWith ACADEMIC_REFERENCES c text ua vb o1 now =
      analyzeWith ACADEMIC_REFERENCES c text ua vb o2 now
    unfold analyzeWith
    rw [hst o1, hst o2]
  · show apiStatusAfter c ua vb o1 = initApiStatus c
    exact hst o1

/-- Witness for C10 with `use_apis = true`, `verbose = false`. -/
theorem C10_no_external_calls_witness :
    analyze ⟨true, true, true⟩ "w" true false ⟨true, true⟩ "t" =
      analyze ⟨true, true, true⟩ "w" true false ⟨false, false⟩ "t" ∧
    (analyze ⟨true, true, true⟩ "w" true false ⟨true, true⟩ "t").api_status =
      initApiStatus ⟨true, true, true⟩ :=
  C10_no_external_calls ⟨true, true, true⟩ "w" true false
    ⟨true, true⟩ ⟨false, false⟩ "t" (by decide)

end PlagGuard
